import Mathlib

/-!
Verification of the `fixit` maintenance-script runner
(`src/fixit/__init__.py`) against its natural-language specification.

The program is shell-out logic over an external version-control tool.
We embed it shallowly:

* the outputs of the version-control subprocess calls are an oracle
  (`GitOutputs`): one field per distinct invocation shape, holding the
  stdout lines that call produced;
* the local filesystem state relevant to the program is the marker file
  (`FS`), modelled by its optional modification time;
* `pathlib` path manipulation (`/`-join, `parent`, `relative_to`) is
  embedded lexically on the parts list, exactly as `pathlib` performs it
  (no `..` resolution);
* effectful steps of `run_fix`, `run_fixes` and `main` are reified as
  event lists so that ordering and cleanup properties can be stated.

Timestamps are integers (the code converts `datetime` values with
`int(ts.timestamp())`; the marker's mtime is only ever compared through
that conversion).
-/

namespace Fixit

/-! ### Lexical paths (pathlib embedding) -/

/-- Splitting a character list on `/`, with the semantics of Python's
`str.split("/")`: `n` separators produce `n + 1` chunks, empty chunks
included. -/
def splitOnSlash : List Char → List (List Char)
  | [] => [[]]
  | c :: rest =>
    if c = '/' then [] :: splitOnSlash rest
    else
      match splitOnSlash rest with
      | [] => [[c]]
      | s :: ss => (c :: s) :: ss

/-- `os.path.basename`: the part of the string after the last `/`. -/
def basename (s : String) : String :=
  String.mk ((splitOnSlash s.data).getLastD [])

/-- The path segments pathlib keeps when parsing a string: split on `/`,
dropping empty segments and `.` segments.  `..` segments are KEPT
(pathlib does not resolve them). -/
def segsOf (s : String) : List String :=
  ((splitOnSlash s.data).map String.mk).filter (fun c => !(c == "" || c == "."))

/-- Whether a path string is absolute (anchored at `/`). -/
def isAbsoluteStr (s : String) : Bool :=
  match s.data with
  | [] => false
  | c :: _ => c = '/'

/-- A pure (lexical) path: an anchor flag plus the list of parts, as in
`pathlib.PurePosixPath`. -/
structure PPath where
  absolute : Bool
  parts : List String
deriving DecidableEq

/-- `pathlib`'s `/` operator: joining an absolute string replaces the
path, otherwise the new segments are appended.  No normalisation of
`..` takes place. -/
def PPath.join (p : PPath) (s : String) : PPath :=
  if isAbsoluteStr s then { absolute := true, parts := segsOf s }
  else { absolute := p.absolute, parts := p.parts ++ segsOf s }

/-- `pathlib`'s `.parent`: drop the last part. -/
def PPath.parent (p : PPath) : PPath :=
  { p with parts := p.parts.dropLast }

/-- `pathlib`'s `relative_to`: succeeds (returning the suffix) exactly
when `other`'s parts are a lexical prefix of `p`'s parts with the same
anchor; raises `ValueError` (here: `none`) otherwise.  Purely lexical:
`..` parts are treated like ordinary names. -/
def PPath.relativeTo (p other : PPath) : Option PPath :=
  if p.absolute == other.absolute && other.parts.isPrefixOf p.parts then
    some { absolute := false, parts := p.parts.drop other.parts.length }
  else none

/-- Walks a relative parts list resolving `..` against the depth below
the root; `false` as soon as a `..` pops above the root. -/
def staysUnder : List String → Nat → Bool
  | [], _ => true
  | p :: rest, d =>
    if p == ".." then
      match d with
      | 0 => false
      | Nat.succ d₀ => staysUnder rest d₀
    else staysUnder rest (d + 1)

/-- A relative parts list escapes the root it is interpreted under iff
resolving its `..` components ever climbs above that root. -/
def escapesRoot (parts : List String) : Bool :=
  !(staysUnder parts 0)

/-! ### Marker file state (`_mark_fixed_all`, `_last_fixed`) -/

/-- Local filesystem state seen by the program: the well-known marker
file `fixit/.last_fixed`, present with a modification time or absent. -/
structure FS where
  marker : Option Int
deriving DecidableEq

/-- `Path.touch(exist_ok=True)`: when the file exists, `os.utime` bumps
its modification time to the current time; when it does not, the file
is created (with the current time).  Either way the mtime afterwards is
`now`. -/
def pathTouch (now : Int) (fs : FS) : FS :=
  match fs.marker with
  | some _ => { marker := some now }
  | none => { marker := some now }

/-- `_mark_fixed_all`: touch the well-known marker file. -/
def _mark_fixed_all (now : Int) (fs : FS) : FS :=
  pathTouch now fs

/-- `_last_fixed`: `None` when the marker does not exist, otherwise its
modification time. -/
def _last_fixed (fs : FS) : Option Int :=
  match fs.marker with
  | none => none
  | some m => some m

/-- Marker-file operations issued by the program, used to state frame
properties of the run path. -/
inductive MarkerOp where
  | existsCheck
  | statMarker
  | touchMarker
deriving DecidableEq

/-- The marker operations `_last_fixed` performs: an existence check,
plus a `stat` when the marker exists. -/
def lastFixedOps (fs : FS) : List MarkerOp :=
  match fs.marker with
  | none => [MarkerOp.existsCheck]
  | some _ => [MarkerOp.existsCheck, MarkerOp.statMarker]

/-- Effect of a marker operation on the filesystem: the two reads leave
it unchanged, a touch applies `pathTouch`. -/
def applyMarkerOp (now : Int) (fs : FS) : MarkerOp → FS
  | MarkerOp.existsCheck => fs
  | MarkerOp.statMarker => fs
  | MarkerOp.touchMarker => pathTouch now fs

/-! ### Version-control oracle and fix discovery -/

/-- Stdout of the three read-only version-control invocations the
discovery code makes, as line lists.  `lsFiles` holds, per output line
of the tree listing, the path field (the fourth whitespace-separated
field, which is what `tree_line.split(maxsplit=3)[3]` extracts). -/
structure GitOutputs where
  revList : Int → List String
  diffNames : String → List String
  lsFiles : List String

/-- `_first_relevant_commit_since`: first stdout line of
`git rev-list --since=<t> fixit/fixes/`, or `None` when the output is
empty. -/
def _first_relevant_commit_since (git : GitOutputs) (t : Int) : Option String :=
  match git.revList t with
  | [] => none
  | l :: _ => some l

/-- `_list_new_fixes_since`: diff the first relevant commit against
`origin/master` and return the basenames of the changed paths; `None`
when there is no relevant commit (or it is the empty string, which is
falsy) or the diff output is empty. -/
def _list_new_fixes_since (git : GitOutputs) (t : Int) : Option (List String) :=
  match _first_relevant_commit_since git t with
  | none => none
  | some sha =>
    if sha == "" then none
    else
      match git.diffNames sha with
      | [] => none
      | lines => some (lines.map basename)

/-- The loop guard in `_list_fixes`: a name is skipped exactly when the
filter set is truthy (non-empty) and the name is not in it. -/
def keepName (filt : Option (List String)) (n : String) : Bool :=
  match filt with
  | none => true
  | some fs => fs.isEmpty || fs.contains n

/-- The collection loop of `_list_fixes`: basename of the path field of
every tree line, kept subject to `keepName`. -/
def collectItems (lsFiles : List String) (filt : Option (List String)) : List String :=
  (lsFiles.map basename).filter (keepName filt)

/-- `_list_fixes`: unconditional listing of the tree names, or — when a
since-timestamp is given — the same listing filtered to the basenames
changed since then, with `None` when nothing relevant changed. -/
def _list_fixes (git : GitOutputs) (since_date : Option Int) : Option (List String) :=
  match since_date with
  | none => some (collectItems git.lsFiles none)
  | some t =>
    match _list_new_fixes_since git t with
    | none => none
    | some new_fixes =>
      if new_fixes.isEmpty then none
      else some (collectItems git.lsFiles (some new_fixes))

/-- Modelled from the spec: the external version-control tool's "list
commits touching the fixes path bounded by time `t`" query, over an
abstract history of (commit id, commit time) pairs.  Per the spec the
output is the reverse-chronological list of the commits at or after
`t`; reverse-chronological order of the history itself is a hypothesis
of the theorems using this. -/
def revListOutput (hist : List (String × Int)) (t : Int) : List String :=
  (hist.filter (fun c => decide (t ≤ c.2))).map Prod.fst

/-! ### Fix execution (`run_fix`) -/

/-- Effectful steps of one `run_fix` call. -/
inductive Ev where
  | createTemp
  | gitShow
  | closeTemp
  | chmod (mode : Nat)
  | execTemp
  | removeTemp
deriving DecidableEq

/-- Which of the fallible steps inside the `try` block raise, plus the
exit status of the executed script (ignored by the code). -/
structure RunEnv where
  showRaises : Bool
  chmodRaises : Bool
  execRaises : Bool
  scriptExit : Int
deriving DecidableEq

inductive Outcome where
  | ok
  | pathError
  | raised
deriving DecidableEq

structure RunResult where
  events : List Ev
  outcome : Outcome
deriving DecidableEq

/-- The path computation at the top of `run_fix`:
`(prog_root / "fixes" / name).relative_to(repo_root)` with
`repo_root = prog_root.parent`. -/
def fixPathOf (progRoot : PPath) (name : String) : Option PPath :=
  ((PPath.join progRoot "fixes").join name).relativeTo progRoot.parent

/-- The parts of the computed fix path relative to the repository root
(empty when relativisation failed). -/
def fixRelParts (progRoot : PPath) (name : String) : List String :=
  match fixPathOf progRoot name with
  | none => []
  | some p => p.parts

/-- The `try` block of `run_fix`: retrieval into the temp file, close,
chmod to `0o700` (448), then execution; a raising step cuts the rest of
the block short. -/
def tryBody (env : RunEnv) : List Ev :=
  [Ev.gitShow] ++
    (if env.showRaises then []
     else [Ev.closeTemp] ++
       (if env.chmodRaises then []
        else [Ev.chmod 448] ++ (if env.execRaises then [] else [Ev.execTemp])))

/-- `run_fix`: compute and validate the fix path (a `ValueError` from
`relative_to` propagates before anything is created); otherwise create
the temp file, run the `try` block, and — in a `finally` — remove the
temp file on every exit path. -/
def run_fix (progRoot : PPath) (name : String) (env : RunEnv) : RunResult :=
  match fixPathOf progRoot name with
  | none => { events := [], outcome := Outcome.pathError }
  | some _ =>
    { events := [Ev.createTemp] ++ tryBody env ++ [Ev.removeTemp],
      outcome :=
        if env.showRaises || env.chmodRaises || env.execRaises then Outcome.raised
        else Outcome.ok }

/-- Whether, after replaying the events, a temp file created during the
call is still on disk. -/
def tempRemains (events : List Ev) : Bool :=
  events.foldl
    (fun st e =>
      match e with
      | Ev.createTemp => true
      | Ev.removeTemp => false
      | _ => st)
    false

/-- Checks that every `execTemp` event is immediately preceded by a
`chmod 448` event (`prev` is the event just before the current list). -/
def chmodGuardsExec : Option Ev → List Ev → Bool
  | _, [] => true
  | prev, e :: rest =>
    (if e = Ev.execTemp then decide (prev = some (Ev.chmod 448)) else true)
      && chmodGuardsExec (some e) rest

/-! ### Orchestration (`run_fixes`) -/

/-- Observable steps of `run_fixes`: a line printed to stdout, or an
invocation of `run_fix`. -/
inductive RunEv where
  | msg (s : String)
  | fixRun (name : String)
deriving DecidableEq

structure RunFixesResult where
  log : List RunEv
  ops : List MarkerOp
deriving DecidableEq

/-- The discovery call `run_fixes` makes: unconditional when `run_all`,
otherwise bounded by `_last_fixed()`. -/
def discoveredFixes (git : GitOutputs) (fs : FS) (run_all : Bool) : Option (List String) :=
  if run_all then _list_fixes git none
  else _list_fixes git (_last_fixed fs)

/-- Python falsiness of the discovery result (`if not fixes`): `None`
or the empty list. -/
def noFixesOutcome : Option (List String) → Bool
  | none => true
  | some l => l.isEmpty

/-- The output of `run_fixes`: the "nothing to do" message when the
discovery result is falsy, otherwise a `Running fix <name>` line
followed by the `run_fix` call, per fix in order. -/
def runFixesLog : Option (List String) → List RunEv
  | none => [RunEv.msg "No fixes to run!"]
  | some l =>
    if l.isEmpty then [RunEv.msg "No fixes to run!"]
    else l.flatMap (fun f => [RunEv.msg ("Running fix " ++ f), RunEv.fixRun f])

/-- `run_fixes`: discovery (reading the marker unless `run_all`), then
the print/execute loop.  `ops` records every marker-file operation the
call performs. -/
def run_fixes (git : GitOutputs) (fs : FS) (run_all : Bool) : RunFixesResult :=
  { log := runFixesLog (discoveredFixes git fs run_all),
    ops := if run_all then [] else lastFixedOps fs }

/-- The names `run_fixes` actually executed, read off its log. -/
def executedFixes (log : List RunEv) : List String :=
  log.filterMap
    (fun e =>
      match e with
      | RunEv.fixRun n => some n
      | RunEv.msg _ => none)

/-! ### CLI entry point (`main`) -/

/-- Observable steps of `main`: the unconditional fetch, then the
argument dispatch (`run_fixes()`, `run_fixes(run_all=True)`,
`run_fix(argv[0])`, or usage on stderr followed by `sys.exit(1)`). -/
inductive MainEv where
  | fetch
  | runFixesEv (run_all : Bool)
  | runOneFix (name : String)
  | usageErr
  | exitWith (code : Nat)
deriving DecidableEq

/-- `main(argv)` for `argv = sys.argv[1:]`: the fetch always runs
first, then the dispatch on the argument count. -/
def mainEvents (argv : List String) : List MainEv :=
  [MainEv.fetch] ++
    (match argv with
     | [] => [MainEv.runFixesEv false]
     | [a] => if a = "all" then [MainEv.runFixesEv true] else [MainEv.runOneFix a]
     | _ => [MainEv.usageErr, MainEv.exitWith 1])

/-! ### Concrete instances used by witnesses and counterexamples -/

/-- Two-commit history, newest first: `B` at time 20, `A` at time 10. -/
def histC2 : List (String × Int) := [("B", 20), ("A", 10)]

/-- Oracle whose rev-list output follows `revListOutput histC2`. -/
def gitC2 : GitOutputs :=
  { revList := revListOutput histC2, diffNames := fun _ => [], lsFiles := [] }

/-- Oracle for the filtering witness: one relevant commit, a diff
touching only `a.sh`, and a tree containing `a.sh` and `b.sh`. -/
def gitC6 : GitOutputs :=
  { revList := fun _ => ["abc123"],
    diffNames := fun _ => ["fixit/fixes/a.sh"],
    lsFiles := ["fixit/fixes/a.sh", "fixit/fixes/b.sh"] }

/-- Oracle for the orchestration witness: a tree containing `a.sh` and
`b.sh`, no history queries needed. -/
def gitFull : GitOutputs :=
  { revList := fun _ => [], diffNames := fun _ => [],
    lsFiles := ["fixit/fixes/a.sh", "fixit/fixes/b.sh"] }

/-- Marker absent. -/
def fsNoMarker : FS := { marker := none }

/-- A concrete absolute installation directory of the program package:
`/home/u/repo/fixit`. -/
def progRootEx : PPath :=
  { absolute := true, parts := ["home", "u", "repo", "fixit"] }

/-- Benign execution environment: no step raises, script exits 0. -/
def envAllOk : RunEnv :=
  { showRaises := false, chmodRaises := false, execRaises := false, scriptExit := 0 }

/-! ### Helper lemmas -/

/-- Reading the executed names back off the interleaved print/run log
gives exactly the discovered list. -/
theorem executedFixes_flatMap (l : List String) :
    executedFixes (l.flatMap (fun f => [RunEv.msg ("Running fix " ++ f), RunEv.fixRun f])) = l := by
  induction l with
  | nil => rfl
  | cons a t ih =>
    simp only [List.flatMap_cons, executedFixes, List.filterMap_append, List.filterMap_cons,
      List.filterMap_nil] at ih ⊢
    simpa using ih

/-- For a relative (not `/`-anchored) name, the relativisation in
`run_fix` always succeeds: the joined path lexically extends the
repository root by construction, whatever the name's segments (`..`
included) resolve to. -/
theorem fixPathOf_relative_isSome (progRoot : PPath) (name : String)
    (h : isAbsoluteStr name = false) : (fixPathOf progRoot name).isSome = true := by
  have hj1 : PPath.join progRoot "fixes" =
      { absolute := progRoot.absolute, parts := progRoot.parts ++ ["fixes"] } := by
    unfold PPath.join
    rw [if_neg (by decide)]
    rw [show segsOf "fixes" = ["fixes"] from by decide]
  have hj2 : PPath.join { absolute := progRoot.absolute, parts := progRoot.parts ++ ["fixes"] }
      name =
      { absolute := progRoot.absolute,
        parts := (progRoot.parts ++ ["fixes"]) ++ segsOf name } := by
    unfold PPath.join
    rw [if_neg (by simp [h])]
  have hpre : progRoot.parts.dropLast <+: progRoot.parts ++ "fixes" :: segsOf name :=
    (List.dropLast_prefix progRoot.parts).trans
      (List.prefix_append progRoot.parts ("fixes" :: segsOf name))
  unfold fixPathOf
  rw [hj1, hj2]
  unfold PPath.relativeTo PPath.parent
  simp [hpre]

end Fixit

/-! ## Claim theorems -/

namespace Fixit

/-- C1 counterexample: `_mark_fixed_all` on an existing marker is NOT a
no-op.  With the marker present at mtime 5 and the current time 10, the
Python `Path.touch(exist_ok=True)` call bumps the mtime to 10 (it calls
`os.utime` on an existing file), so the state changes. -/
theorem mark_fixed_all_cex :
    _mark_fixed_all 10 { marker := some 5 } ≠ ({ marker := some 5 } : FS) := by
  decide

/-- C1 (amended): `_mark_fixed_all` on an existing marker creates no
new file, but refreshes the marker's modification time to the current
time (touch is a refresh, not creation-only). -/
theorem mark_fixed_all_refreshes :
    ∀ (fs : FS) (t now : Int), fs.marker = some t →
      _mark_fixed_all now fs = { marker := some now } := by
  intro fs t now h
  simp [_mark_fixed_all, pathTouch, h]

/-- Witness for `mark_fixed_all_refreshes` at a concrete state. -/
theorem mark_fixed_all_refreshes_witness :
    _mark_fixed_all 10 { marker := some 5 } = ({ marker := some 10 } : FS) :=
  mark_fixed_all_refreshes { marker := some 5 } 5 10 rfl

/-- C2 counterexample: with history `histC2` (commit `B` at time 20,
commit `A` at time 10, reverse-chronological) and `sinceTimestamp = 5`,
the code selects `B` — yet `A` also touches the fixes path at or after
5 and has a strictly smaller timestamp, so the selected commit is not
the earliest one at or after the timestamp. -/
theorem first_commit_cex :
    _first_relevant_commit_since gitC2 5 = some "B" ∧
    ("B", (20 : Int)) ∈ histC2 ∧ ("A", (10 : Int)) ∈ histC2 ∧
    ((5 : Int) ≤ 10) ∧ ¬ ((20 : Int) ≤ 10) := by
  decide

/-- C2 (amended): for every present sinceTimestamp, incremental
discovery selects the MOST RECENT (latest) commit touching the fixes
directory at or after that timestamp — the first entry of the
reverse-chronological commit list bounded by that time; if no such
commit exists, discovery yields no fixes. -/
theorem first_commit_latest :
    ∀ (hist : List (String × Int)) (git : GitOutputs) (t : Int),
      git.revList = revListOutput hist →
      hist.Pairwise (fun a b => b.2 ≤ a.2) →
      ((∀ sha, _first_relevant_commit_since git t = some sha →
          ∃ ts, (sha, ts) ∈ hist ∧ t ≤ ts ∧ ∀ c ∈ hist, t ≤ c.2 → c.2 ≤ ts) ∧
        ((∀ c ∈ hist, c.2 < t) → _list_fixes git (some t) = none)) := by
  intro hist git t hrev hsort
  constructor
  · intro sha hsha
    unfold _first_relevant_commit_since at hsha
    rw [hrev] at hsha
    unfold revListOutput at hsha
    rcases hf : hist.filter (fun c => decide (t ≤ c.2)) with _ | ⟨c, rest⟩
    · rw [hf] at hsha
      simp at hsha
    · rw [hf] at hsha
      simp at hsha
      have hc : c ∈ hist.filter (fun c => decide (t ≤ c.2)) := by
        rw [hf]
        exact List.mem_cons_self c rest
      have hmem : c ∈ hist := List.mem_of_mem_filter hc
      have hle : t ≤ c.2 := of_decide_eq_true (List.mem_filter.mp hc).2
      refine ⟨c.2, ?_, hle, ?_⟩
      · rw [← hsha]
        simpa using hmem
      · intro d hd hdt
        have hdf : d ∈ hist.filter (fun c => decide (t ≤ c.2)) :=
          List.mem_filter.mpr ⟨hd, by simpa⟩
        rw [hf] at hdf
        rcases List.mem_cons.mp hdf with h1 | h2
        · rw [h1]
        · have hp : (hist.filter (fun c => decide (t ≤ c.2))).Pairwise
              (fun a b => b.2 ≤ a.2) :=
            hsort.sublist (List.filter_sublist hist)
          rw [hf] at hp
          exact (List.pairwise_cons.mp hp).1 d h2
  · intro hlt
    have hf0 : hist.filter (fun c => decide (t ≤ c.2)) = [] :=
      List.filter_eq_nil_iff.mpr (by intro c hc; simpa using (hlt c hc).not_le)
    simp [_list_fixes, _list_new_fixes_since, _first_relevant_commit_since, hrev,
      revListOutput, hf0]

/-- Witness for `first_commit_latest`: with no commit at or after
time 100 in `histC2`, incremental discovery yields no fixes. -/
theorem first_commit_latest_witness :
    _list_fixes gitC2 (some 100) = none :=
  (first_commit_latest histC2 gitC2 100 rfl (by decide)).2 (by decide)

/-- C3 counterexample: for the name `../../../etc/passwd` the computed
fix path resolves outside the repository root (`escapesRoot` is true on
the repo-relative parts), yet `run_fix` does not fail loudly: the
lexical `relative_to` validation succeeds (`pathlib` does not resolve
`..`), and the call proceeds to retrieval (`gitShow` occurs). -/
theorem run_fix_traversal_cex :
    escapesRoot (fixRelParts progRootEx "../../../etc/passwd") = true ∧
    (run_fix progRootEx "../../../etc/passwd" envAllOk).outcome ≠ Outcome.pathError ∧
    Ev.gitShow ∈ (run_fix progRootEx "../../../etc/passwd" envAllOk).events := by
  decide

/-- C3 (amended): the computed script path is relativised against the
repository root before any content is retrieved, and a relativisation
failure aborts `run_fix` before anything is created or executed — but
the check is lexical: it fails only when the computed path does not
lexically extend the repository root (e.g. an absolute name).  Every
relative name — parent-directory components included — passes the
validation. -/
theorem run_fix_validation :
    ∀ (progRoot : PPath) (name : String) (env : RunEnv),
      ((run_fix progRoot name env).outcome = Outcome.pathError →
         (run_fix progRoot name env).events = []) ∧
      (isAbsoluteStr name = false →
         (run_fix progRoot name env).outcome ≠ Outcome.pathError) := by
  intro progRoot name env
  constructor
  · intro h
    rcases hfp : fixPathOf progRoot name with _ | p
    · simp [run_fix, hfp]
    · exfalso
      simp only [run_fix, hfp] at h
      split at h
      · exact Outcome.noConfusion h
      · exact Outcome.noConfusion h
  · intro hrel
    have hs := fixPathOf_relative_isSome progRoot name hrel
    rcases hfp : fixPathOf progRoot name with _ | p
    · rw [hfp] at hs
      cases hs
    · simp only [run_fix, hfp]
      intro h
      split at h
      · exact Outcome.noConfusion h
      · exact Outcome.noConfusion h

/-- Witness for `run_fix_validation`: the ordinary name `a.sh` passes
validation. -/
theorem run_fix_validation_witness :
    (run_fix progRootEx "a.sh" envAllOk).outcome ≠ Outcome.pathError :=
  (run_fix_validation progRootEx "a.sh" envAllOk).2 (by decide)

/-- C4: on every exit path of `run_fix` — normal return, non-zero
script exit (which raises nothing), or an exception raised during
retrieval, permission-setting or execution — no temporary file created
during the call remains on disk afterwards (the `finally` block removes
it; when validation fails, nothing was created). -/
theorem run_fix_temp_cleanup :
    ∀ (progRoot : PPath) (name : String) (env : RunEnv),
      tempRemains (run_fix progRoot name env).events = false := by
  intro progRoot name env
  rcases env with ⟨s, c, e, code⟩
  rcases hfp : fixPathOf progRoot name with _ | p
  · simp [run_fix, hfp, tempRemains]
  · cases s <;> cases c <;> cases e <;>
      simp [run_fix, hfp, tryBody, tempRemains]

/-- C5: in every execution of `run_fix`, the materialised script is
never executed without its permission bits having been set to 448
(`0o700`: owner read/write/execute only) by the immediately preceding
step. -/
theorem run_fix_chmod_before_exec :
    ∀ (progRoot : PPath) (name : String) (env : RunEnv),
      chmodGuardsExec none (run_fix progRoot name env).events = true := by
  intro progRoot name env
  rcases env with ⟨s, c, e, code⟩
  rcases hfp : fixPathOf progRoot name with _ | p
  · simp [run_fix, hfp, chmodGuardsExec]
  · cases s <;> cases c <;> cases e <;>
      simp [run_fix, hfp, tryBody, chmodGuardsExec]

/-- C6: whenever filtered discovery (`_list_fixes` with a timestamp)
returns a sequence, that sequence is a subsequence of the sequence the
unconditional discovery (`_list_fixes` with no timestamp) returns over
the same oracle state: filtering never introduces a name absent from
the branch-tip tree listing. -/
theorem list_fixes_filtered_sublist :
    ∀ (git : GitOutputs) (t : Int) (l : List String),
      _list_fixes git (some t) = some l →
      ∃ m, _list_fixes git none = some m ∧ l.Sublist m := by
  intro git t l h
  refine ⟨collectItems git.lsFiles none, rfl, ?_⟩
  simp only [_list_fixes] at h
  rcases hn : _list_new_fixes_since git t with _ | nf <;> rw [hn] at h
  · cases h
  · by_cases he : nf.isEmpty = true
    · simp [he] at h
    · simp [he] at h
      subst h
      unfold collectItems
      have h2 : (git.lsFiles.map basename).filter (keepName none) =
          git.lsFiles.map basename := by
        simp [keepName]
      rw [h2]
      exact List.filter_sublist _


/-- Witness for `list_fixes_filtered_sublist`: with oracle `gitC6` the
filtered result `["a.sh"]` is a subsequence of the unconditional
listing. -/
theorem list_fixes_filtered_sublist_witness :
    ∃ m, _list_fixes gitC6 none = some m ∧ List.Sublist ["a.sh"] m :=
  list_fixes_filtered_sublist gitC6 0 ["a.sh"] (by decide)

/-- C7: when discovery is falsy (`None` or the empty list) `run_fixes`
prints exactly `No fixes to run!` and executes nothing; otherwise it
executes each discovered fix sequentially in discovery order, printing
`Running fix <name>` immediately before each execution. -/
theorem run_fixes_dispatch :
    ∀ (git : GitOutputs) (fs : FS) (b : Bool),
      (noFixesOutcome (discoveredFixes git fs b) = true →
         (run_fixes git fs b).log = [RunEv.msg "No fixes to run!"] ∧
         executedFixes (run_fixes git fs b).log = []) ∧
      (∀ l, discoveredFixes git fs b = some l → l.isEmpty = false →
         (run_fixes git fs b).log =
           l.flatMap (fun f => [RunEv.msg ("Running fix " ++ f), RunEv.fixRun f]) ∧
         executedFixes (run_fixes git fs b).log = l) := by
  intro git fs b
  constructor
  · intro h
    rcases hd : discoveredFixes git fs b with _ | l
    · simp [run_fixes, runFixesLog, hd, executedFixes]
    · rw [hd] at h
      simp only [noFixesOutcome] at h
      simp [run_fixes, runFixesLog, hd, h, executedFixes]
  · intro l hd hne
    constructor
    · simp [run_fixes, runFixesLog, hd, hne]
    · simp [run_fixes, runFixesLog, hd, hne, executedFixes_flatMap]

/-- Witness for `run_fixes_dispatch`: marker absent and the remote tree
holding `a.sh` and `b.sh`, `run_fixes` (not run-all) prints and runs
both in tree order. -/
theorem run_fixes_dispatch_witness :
    (run_fixes gitFull fsNoMarker false).log =
      (["a.sh", "b.sh"]).flatMap
        (fun f => [RunEv.msg ("Running fix " ++ f), RunEv.fixRun f]) ∧
    executedFixes (run_fixes gitFull fsNoMarker false).log = ["a.sh", "b.sh"] :=
  (run_fixes_dispatch gitFull fsNoMarker false).2 ["a.sh", "b.sh"] (by decide) (by decide)

/-- C8: the run path never modifies the marker file: every marker
operation `run_fixes` performs is a read (no touch appears), and
replaying those operations leaves the filesystem state — marker
existence and modification time — unchanged, for either value of
`run_all`. -/
theorem run_fixes_marker_frame :
    ∀ (git : GitOutputs) (fs : FS) (b : Bool) (now : Int),
      MarkerOp.touchMarker ∉ (run_fixes git fs b).ops ∧
      (run_fixes git fs b).ops.foldl (applyMarkerOp now) fs = fs := by
  intro git fs b now
  cases b <;> rcases fs with ⟨_ | m⟩ <;>
    simp [run_fixes, lastFixedOps, applyMarkerOp]

/-- C9: two or more command-line arguments produce exactly the usage
message on the error stream and exit status 1 with zero fixes executed;
zero arguments run the pending fixes, the single argument `all` runs
every fix unconditionally, and any other single argument runs only that
named fix. -/
theorem main_dispatch :
    ∀ argv : List String,
      (2 ≤ argv.length →
         mainEvents argv = [MainEv.fetch, MainEv.usageErr, MainEv.exitWith 1] ∧
         (∀ b, MainEv.runFixesEv b ∉ mainEvents argv) ∧
         (∀ a, MainEv.runOneFix a ∉ mainEvents argv)) ∧
      mainEvents [] = [MainEv.fetch, MainEv.runFixesEv false] ∧
      mainEvents ["all"] = [MainEv.fetch, MainEv.runFixesEv true] ∧
      (∀ a, a ≠ "all" → mainEvents [a] = [MainEv.fetch, MainEv.runOneFix a]) := by
  intro argv
  refine ⟨?_, by decide, by decide, ?_⟩
  · intro h
    rcases argv with _ | ⟨x, _ | ⟨y, rest⟩⟩
    · exact absurd h (by simp)
    · exact absurd h (by simp)
    · refine ⟨rfl, ?_, ?_⟩ <;> intro z <;> simp [mainEvents]
  · intro a ha
    simp [mainEvents, ha]

/-- Witness for `main_dispatch`: a concrete two-argument invocation and
a concrete one-argument invocation. -/
theorem main_dispatch_witness :
    mainEvents ["x", "y"] = [MainEv.fetch, MainEv.usageErr, MainEv.exitWith 1] ∧
    mainEvents ["foo"] = [MainEv.fetch, MainEv.runOneFix "foo"] :=
  ⟨((main_dispatch ["x", "y"]).1 (by decide)).1,
   (main_dispatch ["foo"]).2.2.2 "foo" (by decide)⟩

/-- C10: `main` issues the remote fetch before dispatching on the
argument count: the fetch is the first event of every invocation, and
even an erroneous invocation (two or more arguments, ending in the
usage error and exit 1) performs the fetch. -/
theorem main_fetch_first :
    ∀ argv : List String,
      (mainEvents argv).head? = some MainEv.fetch ∧
      (2 ≤ argv.length →
         MainEv.fetch ∈ mainEvents argv ∧
         mainEvents argv = [MainEv.fetch, MainEv.usageErr, MainEv.exitWith 1]) := by
  intro argv
  constructor
  · rfl
  · intro h
    rcases argv with _ | ⟨x, _ | ⟨y, rest⟩⟩
    · exact absurd h (by simp)
    · exact absurd h (by simp)
    · exact ⟨by simp [mainEvents], rfl⟩

/-- Witness for `main_fetch_first`: the fetch happens in a concrete
erroneous two-argument invocation. -/
theorem main_fetch_first_witness :
    MainEv.fetch ∈ mainEvents ["a", "b"] ∧
    mainEvents ["a", "b"] = [MainEv.fetch, MainEv.usageErr, MainEv.exitWith 1] :=
  (main_fetch_first ["a", "b"]).2 (by decide)

end Fixit
